import Mathlib

/-
Verification of the prompt-engineering repository's specification against its
code.

The repository contains tutorial notebooks (chain-of-thought, function
calling, program-aided reasoning) plus an iterative prompt-optimization
driver.  The notebooks' pure fragments are embedded directly; the driver
script itself is documented only by its mermaid flowchart, so its loop is
modelled from the spec and that flowchart.

Python strings are embedded as `List Char`; Python floats (judge scores and
their averages) as exact rationals `ℚ`; fallible model calls as `Except`.
-/

set_option maxRecDepth 20000

/- ## Chain-of-thought notebook: inner-monologue extraction -/

/-- Python's `s.startswith(pat)` on character lists. -/
def startsWithL : List Char → List Char → Bool
  | [], _ => true
  | _ :: _, [] => false
  | a :: as, b :: bs => a == b && startsWithL as bs

/-- Python's `pat in s` substring test on character lists. -/
def occursIn (pat : List Char) : List Char → Bool
  | [] => pat.isEmpty
  | c :: rest => startsWithL pat (c :: rest) || occursIn pat rest

/-- Worker for `pySplit`: scans `s` left to right, accumulating the current
piece in reversed form in `acc`; on an occurrence of `sep` it emits the piece
and skips over the separator.  `fuel` only bounds the recursion and is always
at least `s.length` at the top-level call. -/
def pySplitAux (sep : List Char) : Nat → List Char → List Char → List (List Char)
  | _, [], acc => [acc.reverse]
  | 0, s, acc => [acc.reverse ++ s]
  | fuel+1, c :: rest, acc =>
    if startsWithL sep (c :: rest) then
      acc.reverse :: pySplitAux sep fuel (rest.drop (sep.length - 1)) []
    else
      pySplitAux sep fuel rest (c :: acc)

/-- Python's `s.split(sep)` for a non-empty separator `sep`. -/
def pySplit (sep s : List Char) : List (List Char) := pySplitAux sep s.length s []

/-- `response_delimiter = "<response>"` from the chain-of-thought notebook. -/
def response_delimiter : List Char := "<response>".data

/-- `response_delimiter_end = "</response>"` from the chain-of-thought notebook. -/
def response_delimiter_end : List Char := "</response>".data

/-- The literal prefix-marker string `"Response to the user: "` that the
notebook splits on after cutting out the response segment. -/
def userRespMarker : List Char := "Response to the user: ".data

/-- The notebook's extraction cell:
`response.split(response_delimiter)[1].split(response_delimiter_end)[0]`
followed by `.split("Response to the user: ")[1]`, wrapped in
`try/except`.  Indexing `[1]` raises `IndexError` when the split produced a
single piece, which the bare `except` turns into the fallback branch; that
fallback is modelled as `none`, the extracted text as `some`.  `[0]` never
raises, since a split always returns at least one piece. -/
def extractFinalResponse (response : List Char) : Option (List Char) :=
  match (pySplit response_delimiter response).get? 1 with
  | none => none
  | some seg =>
    match (pySplit userRespMarker ((pySplit response_delimiter_end seg).headD [])).get? 1 with
    | none => none
    | some fin => some fin

/- ## Function-calling notebook: the dummy weather tool -/

/-- Lower-case hexadecimal digit, as produced by Python's JSON encoder. -/
def hexDigit (n : Nat) : Char := if n < 10 then Char.ofNat (48 + n) else Char.ofNat (87 + n)

/-- Four-digit hexadecimal rendering used in `\uXXXX` escapes. -/
def hex4 (n : Nat) : List Char :=
  [hexDigit (n / 4096 % 16), hexDigit (n / 256 % 16), hexDigit (n / 16 % 16), hexDigit (n % 16)]

/-- `json.dumps` escaping of one character (default `ensure_ascii=True`):
`"` and `\` get a backslash, the named control characters use their short
escapes, other characters outside `0x20`–`0x7e` become `\uXXXX` (with a
surrogate pair above `0xFFFF`), and everything else is passed through. -/
def escChar (c : Char) : List Char :=
  if c.toNat = 34 then ['\\', '"']
  else if c.toNat = 92 then ['\\', '\\']
  else if c.toNat = 8 then ['\\', 'b']
  else if c.toNat = 9 then ['\\', 't']
  else if c.toNat = 10 then ['\\', 'n']
  else if c.toNat = 12 then ['\\', 'f']
  else if c.toNat = 13 then ['\\', 'r']
  else if 32 ≤ c.toNat ∧ c.toNat ≤ 126 then [c]
  else if c.toNat < 65536 then '\\' :: 'u' :: hex4 c.toNat
  else '\\' :: 'u' :: hex4 (55296 + (c.toNat - 65536) / 1024) ++
       '\\' :: 'u' :: hex4 (56320 + (c.toNat - 65536) % 1024)

/-- `json.dumps` escaping of a whole string body. -/
def jsonEscape : List Char → List Char
  | [] => []
  | c :: cs => escChar c ++ jsonEscape cs

/-- A character that `json.dumps` passes through unescaped. -/
def plainChar (c : Char) : Prop :=
  32 ≤ c.toNat ∧ c.toNat ≤ 126 ∧ c.toNat ≠ 34 ∧ c.toNat ≠ 92

instance (c : Char) : Decidable (plainChar c) := by
  unfold plainChar
  infer_instance

/-- Wrap a rendered string body in double quotes. -/
def quoteJ (s : List Char) : List Char := '"' :: s ++ ['"']

/-- Render one `"key": "value"` pair with `json.dumps`'s default `': '`
key separator. -/
def renderPair (kv : List Char × List Char) : List Char :=
  quoteJ (jsonEscape kv.1) ++ ':' :: ' ' :: quoteJ (jsonEscape kv.2)

/-- `json.dumps` on a flat dict of string keys and string values, in
insertion order, with the default `', '` item separator. -/
def jsonDumps (kvs : List (List Char × List Char)) : List Char :=
  Char.ofNat 123 :: List.intercalate [',', ' '] (kvs.map renderPair) ++ [Char.ofNat 125]

/-- The dict literal built inside `get_current_weather`:
`{"location": location, "temperature": "50", "unit": unit}`. -/
def weatherDict (location unit : List Char) : List (List Char × List Char) :=
  [("location".data, location), ("temperature".data, "50".data), ("unit".data, unit)]

/-- The notebook's dummy tool `get_current_weather(location, unit)`:
builds the weather dict and returns `json.dumps` of it. -/
def get_current_weather (location unit : List Char) : List Char :=
  jsonDumps (weatherDict location unit)

/-- The default value `"fahrenheit"` of the `unit` parameter. -/
def defaultUnit : List Char := "fahrenheit".data

/-- `get_current_weather(location)` called with one positional argument,
so `unit` takes its default. -/
def get_current_weather1 (location : List Char) : List Char :=
  get_current_weather location defaultUnit

/-- Association-list lookup, used to read fields back out of the modelled
dicts. -/
def lookupStr (k : List Char) : List (List Char × List Char) → Option (List Char)
  | [] => none
  | kv :: rest => if k = kv.1 then some kv.2 else lookupStr k rest

/-- A `tool`-role chat message as appended in the model-feedback cell. -/
structure ToolMessage where
  role : List Char
  toolCallId : List Char
  name : List Char
  content : List Char

/-- The raw JSON arguments string
`'{"location":"Boston, MA"}'` recorded in the notebook's output for the
model-feedback walkthrough. -/
def bostonArgs : List Char := "\x7b\"location\":\"Boston, MA\"\x7d".data

/-- The message the model-feedback cell appends: the tool is called as
`get_current_weather(messages[1]["tool_calls"][0]["function"]["arguments"])`,
i.e. with the raw JSON arguments string as `location` and the unit left to
its default, and the serialized result becomes the message content. -/
def feedbackToolMessage : ToolMessage :=
  { role := "tool".data
    toolCallId := "call_HjEsBatvMQLfyvpW3YjaRd6k".data
    name := "get_current_weather".data
    content := get_current_weather1 bostonArgs }

/- ## Prompt-optimization driver (modelled from the spec and its flowchart) -/

/-- Modelled from the spec: one validation-data record of the driver script,
whose source is absent from the repository (only its mermaid flowchart is
kept).  A paper carries its abstract and its gold labels. -/
structure Paper where
  abstract : List Char
  gold : List (List Char)
deriving DecidableEq

/-- Modelled from the spec: a stored prediction — the paper together with
the extracted and cleaned model names (flowchart node G5). -/
structure Prediction where
  paper : Paper
  predicted : List (List Char)
deriving DecidableEq

/-- Modelled from the spec: one judge evaluation — a score and an
explanation (flowchart node H3).  The Python float score is embedded as an
exact rational. -/
structure Evaluation where
  score : ℚ
  explanation : List Char
deriving DecidableEq

/-- Modelled from the spec: the per-iteration record saved in memory at
flowchart node I. -/
structure IterationResult where
  iteration : Nat
  prompt : List Char
  predictions : List Prediction
  evaluations : List Evaluation
  avgScore : ℚ
deriving DecidableEq

/-- Modelled from the spec: the driver's mutable variables — the current
system prompt, the best-so-far tracking variables (flowchart node D), and
the in-memory list of per-iteration results. -/
structure LoopState where
  systemPrompt : List Char
  bestScore : Option ℚ
  bestPrompt : List Char
  bestIteration : Option Nat
  results : List IterationResult
deriving DecidableEq

/-- Modelled from the spec: the driver's helper functions and remote model
calls, abstracted as pure functions.  `mkZeroShot` is node F, `mkQuery`
node G2, `generate` the GPT-4o-mini call G3, `cleanNames` node G4, `judge`
the o3-mini evaluation H2/H3, `mkMetaprompt` node N1 and `improveLLM` the
o3-mini improvement call N2/N3. -/
structure Driver where
  mkZeroShot : List Char → List Char
  mkQuery : List Char → List Char
  generate : List Char → List Char → List Char
  cleanNames : List Char → List (List Char)
  judge : Prediction → ℚ × List Char
  mkMetaprompt : List Char → List Evaluation → List Char
  improveLLM : List Char → List Char

/-- Observable steps of a driver run, used to state sequencing, persistence
and error-propagation properties.  `saveIter` is the in-memory node I;
`saveFinal` is node Q, the single JSON dump to storage. -/
inductive LoopEvent where
  | constructPrompt (round : Nat)
  | generateCall (round : Nat) (idx : Nat)
  | judgeCall (round : Nat) (idx : Nat)
  | saveIter (round : Nat)
  | bestCheck (round : Nat)
  | improveCall (round : Nat)
  | saveFinal
deriving DecidableEq

/-- Modelled from the spec: flowchart subgraph GeneratePredictions — one
prediction per paper, in order. -/
def generatePreds (d : Driver) (full : List Char) (papers : List Paper) : List Prediction :=
  papers.map (fun p => { paper := p, predicted := d.cleanNames (d.generate full (d.mkQuery p.abstract)) })

/-- Modelled from the spec: flowchart subgraph EvaluatePredictions — one
judge evaluation per prediction, in order. -/
def evaluatePreds (d : Driver) (preds : List Prediction) : List Evaluation :=
  preds.map (fun pr => { score := (d.judge pr).1, explanation := (d.judge pr).2 })

/-- `sum(scores)/len(scores)` over exact rationals (node H5). -/
def averageScore (xs : List ℚ) : ℚ := xs.sum / (xs.length : ℚ)

/-- Modelled from the spec: the node-J comparison of the current round's
average against the running maximum; with no best score recorded yet the
first round always wins. -/
def beats (x : ℚ) : Option ℚ → Bool
  | none => true
  | some b => decide (b < x)

/-- The generate-call events of one round, for prediction indices
`j, j+1, …, j+len-1`. -/
def genTrace (i j len : Nat) : List LoopEvent :=
  (List.range' j len).map (LoopEvent.generateCall i)

/-- The judge-call events of one round, for prediction indices
`j, j+1, …, j+len-1`. -/
def judTrace (i j len : Nat) : List LoopEvent :=
  (List.range' j len).map (LoopEvent.judgeCall i)

/-- The full event block of round `i` of a loop over `n` rounds with `plen`
validation papers. -/
def roundShape (plen n i : Nat) : List LoopEvent :=
  .constructPrompt i ::
    (genTrace i 0 plen ++ judTrace i 0 plen ++ [.saveIter i, .bestCheck i] ++
      if i + 1 = n then [] else [.improveCall i])

/-- Modelled from the spec: one round of the iteration loop (flowchart
nodes F through O): construct the zero-shot prompt, generate predictions,
judge them, save the iteration record, run the best-score check, and — when
this is not the last iteration — rewrite the system prompt through the
metaprompt.  Returns the new state and the round's event block. -/
def runRound (d : Driver) (papers : List Paper) (n : Nat) (st : LoopState) (i : Nat) :
    LoopState × List LoopEvent :=
  let full := d.mkZeroShot st.systemPrompt
  let preds := generatePreds d full papers
  let evals := evaluatePreds d preds
  let avg := averageScore (evals.map Evaluation.score)
  let res : IterationResult :=
    { iteration := i, prompt := st.systemPrompt, predictions := preds
      evaluations := evals, avgScore := avg }
  let st1 : LoopState := { st with results := st.results ++ [res] }
  let st2 : LoopState :=
    if beats avg st1.bestScore then
      { st1 with bestScore := some avg, bestPrompt := st1.systemPrompt, bestIteration := some i }
    else st1
  let st3 : LoopState :=
    if i + 1 = n then st2
    else { st2 with systemPrompt := d.improveLLM (d.mkMetaprompt st2.systemPrompt evals) }
  (st3, .constructPrompt i ::
    (genTrace i 0 papers.length ++ judTrace i 0 preds.length ++ [.saveIter i, .bestCheck i] ++
      if i + 1 = n then [] else [.improveCall i]))

/-- Modelled from the spec: run the given round indices in order, threading
the state and concatenating the event blocks. -/
def runRounds (d : Driver) (papers : List Paper) (n : Nat) :
    LoopState → List Nat → LoopState × List LoopEvent
  | st, [] => (st, [])
  | st, i :: l =>
    let r := runRound d papers n st i
    let rest := runRounds d papers n r.1 l
    (rest.1, r.2 ++ rest.2)

/-- Modelled from the spec: the tracking variables right after flowchart
node D — no best score, no best iteration, and the initial system prompt. -/
def initLoopState (initPrompt : List Char) : LoopState :=
  { systemPrompt := initPrompt, bestScore := none, bestPrompt := initPrompt
    bestIteration := none, results := [] }

/-- Modelled from the spec: the whole driver — the `n`-round iteration loop
followed by the final JSON dump (node Q). -/
def program (d : Driver) (papers : List Paper) (n : Nat) (initPrompt : List Char) :
    LoopState × List LoopEvent :=
  let r := runRounds d papers n (initLoopState initPrompt) (List.range n)
  (r.1, r.2 ++ [LoopEvent.saveFinal])

/-- The average score a round starting from the given system prompt
obtains. -/
def roundAvg (d : Driver) (papers : List Paper) (prompt : List Char) : ℚ :=
  averageScore ((evaluatePreds d (generatePreds d (d.mkZeroShot prompt) papers)).map Evaluation.score)

/-- Position key of an event in the lexicographic (round, step) order;
`saveFinal` sorts after every round of an `n`-round run. -/
def eventKey (n : Nat) : LoopEvent → Nat
  | .constructPrompt i => 8 * i
  | .generateCall i _ => 8 * i + 1
  | .judgeCall i _ => 8 * i + 2
  | .saveIter i => 8 * i + 3
  | .bestCheck i => 8 * i + 4
  | .improveCall i => 8 * i + 5
  | .saveFinal => 8 * n + 6

/-- Which events touch persistent storage: only the final JSON dump.  The
in-loop node I appends to an in-memory list (the spec states there is no
persistence contract beyond dumping JSON at the end). -/
def storageEvent : LoopEvent → Bool
  | .saveFinal => true
  | _ => false

/-- A position at which a remote model call can raise: a generate call, a
judge call, or the improve-prompt call of a given round. -/
inductive StepId where
  | gen (round idx : Nat)
  | jud (round idx : Nat)
  | imp (round : Nat)
deriving DecidableEq

/-- The round a failing step belongs to. -/
def StepId.roundOf : StepId → Nat
  | .gen i _ => i
  | .jud i _ => i
  | .imp i => i

/-- The step is one the loop actually reaches: its round is within the `n`
configured rounds, its index within the `plen` papers, and an improve call
only happens on non-final rounds. -/
def StepId.valid (s : StepId) (n plen : Nat) : Prop :=
  match s with
  | .gen i j => i < n ∧ j < plen
  | .jud i j => i < n ∧ j < plen
  | .imp i => i + 1 < n

instance (s : StepId) (n plen : Nat) : Decidable (s.valid n plen) := by
  unfold StepId.valid
  cases s <;> infer_instance

/-- Modelled from the spec: the driver's helpers with fallible remote
calls.  Each model call may raise (return `.error`); the call sites are
tagged with their round and prediction index so that a failure can be
located. -/
structure DriverE (ε : Type) where
  mkZeroShot : List Char → List Char
  mkQuery : List Char → List Char
  generate : Nat → Nat → List Char → List Char → Except ε (List Char)
  cleanNames : List Char → List (List Char)
  judge : Nat → Nat → Prediction → Except ε (ℚ × List Char)
  mkMetaprompt : List Char → List Evaluation → List Char
  improveLLM : Nat → List Char → Except ε (List Char)

/-- The fallible driver that behaves exactly like the pure driver `d`
except that the single call named by `s` raises `e`. -/
def injectFail {ε : Type} (d : Driver) (s : StepId) (e : ε) : DriverE ε :=
  { mkZeroShot := d.mkZeroShot
    mkQuery := d.mkQuery
    generate := fun i j full q => if s = .gen i j then .error e else .ok (d.generate full q)
    cleanNames := d.cleanNames
    judge := fun i j pr => if s = .jud i j then .error e else .ok (d.judge pr)
    mkMetaprompt := d.mkMetaprompt
    improveLLM := fun i mp => if s = .imp i then .error e else .ok (d.improveLLM mp) }

/-- Modelled from the spec: GeneratePredictions with fallible generate
calls.  The first raising call aborts the traversal; its event is the last
one recorded. -/
def genAux {ε : Type} (dE : DriverE ε) (i : Nat) (full : List Char) :
    Nat → List Paper → List LoopEvent × Except ε (List Prediction)
  | _, [] => ([], .ok [])
  | j, p :: ps =>
    match dE.generate i j full (dE.mkQuery p.abstract) with
    | .error e => ([.generateCall i j], .error e)
    | .ok raw =>
      let rest := genAux dE i full (j + 1) ps
      (.generateCall i j :: rest.1, rest.2.map (fun l => { paper := p, predicted := dE.cleanNames raw } :: l))

/-- Modelled from the spec: EvaluatePredictions with fallible judge calls. -/
def judAux {ε : Type} (dE : DriverE ε) (i : Nat) :
    Nat → List Prediction → List LoopEvent × Except ε (List Evaluation)
  | _, [] => ([], .ok [])
  | j, pr :: prs =>
    match dE.judge i j pr with
    | .error e => ([.judgeCall i j], .error e)
    | .ok se =>
      let rest := judAux dE i (j + 1) prs
      (.judgeCall i j :: rest.1, rest.2.map (fun l => { score := se.1, explanation := se.2 } :: l))

/-- Modelled from the spec: one round of the loop with fallible model
calls.  There is no handler anywhere: the first `.error` short-circuits the
round and is returned as is. -/
def runRoundE {ε : Type} (dE : DriverE ε) (papers : List Paper) (n : Nat) (st : LoopState)
    (i : Nat) : List LoopEvent × Except ε LoopState :=
  let full := dE.mkZeroShot st.systemPrompt
  let g := genAux dE i full 0 papers
  match g.2 with
  | .error e => (.constructPrompt i :: g.1, .error e)
  | .ok preds =>
    let jv := judAux dE i 0 preds
    match jv.2 with
    | .error e => (.constructPrompt i :: (g.1 ++ jv.1), .error e)
    | .ok evals =>
      let avg := averageScore (evals.map Evaluation.score)
      let res : IterationResult :=
        { iteration := i, prompt := st.systemPrompt, predictions := preds
          evaluations := evals, avgScore := avg }
      let st1 : LoopState := { st with results := st.results ++ [res] }
      let st2 : LoopState :=
        if beats avg st1.bestScore then
          { st1 with bestScore := some avg, bestPrompt := st1.systemPrompt, bestIteration := some i }
        else st1
      if i + 1 = n then
        (.constructPrompt i :: (g.1 ++ jv.1 ++ [.saveIter i, .bestCheck i]), .ok st2)
      else
        match dE.improveLLM i (dE.mkMetaprompt st2.systemPrompt evals) with
        | .error e =>
          (.constructPrompt i :: (g.1 ++ jv.1 ++ [.saveIter i, .bestCheck i, .improveCall i]), .error e)
        | .ok p2 =>
          (.constructPrompt i :: (g.1 ++ jv.1 ++ [.saveIter i, .bestCheck i, .improveCall i]),
            .ok { st2 with systemPrompt := p2 })

/-- Modelled from the spec: the fallible loop over the given round indices.
A raising round stops the loop at once; later rounds never run. -/
def runRoundsE {ε : Type} (dE : DriverE ε) (papers : List Paper) (n : Nat) :
    LoopState → List Nat → List LoopEvent × Except ε LoopState
  | st, [] => ([], .ok st)
  | st, i :: l =>
    let r := runRoundE dE papers n st i
    match r.2 with
    | .error e => (r.1, .error e)
    | .ok st2 =>
      let rest := runRoundsE dE papers n st2 l
      (r.1 ++ rest.1, rest.2)

/-- Modelled from the spec: the whole fallible driver.  The final JSON dump
only happens when the loop finished without an exception. -/
def programE {ε : Type} (dE : DriverE ε) (papers : List Paper) (n : Nat) (initPrompt : List Char) :
    List LoopEvent × Except ε LoopState :=
  let r := runRoundsE dE papers n (initLoopState initPrompt) (List.range n)
  match r.2 with
  | .error e => (r.1, .error e)
  | .ok st => (r.1 ++ [LoopEvent.saveFinal], .ok st)

/-- The events a run emits up to and including the failing call `s`: all
rounds before `s`'s round in full, then the failing round cut at `s`. -/
def failTrace (plen : Nat) : StepId → List LoopEvent
  | .gen i j => .constructPrompt i :: genTrace i 0 (j + 1)
  | .jud i j => .constructPrompt i :: (genTrace i 0 plen ++ judTrace i 0 (j + 1))
  | .imp i =>
    .constructPrompt i ::
      (genTrace i 0 plen ++ judTrace i 0 plen ++ [.saveIter i, .bestCheck i, .improveCall i])

/- ## Derived definitions used in the statements -/

/-- The predictions one round computes from a given system prompt. -/
def roundPreds (d : Driver) (papers : List Paper) (prompt : List Char) : List Prediction :=
  generatePreds d (d.mkZeroShot prompt) papers

/-- The evaluations one round computes from a given system prompt. -/
def roundEvals (d : Driver) (papers : List Paper) (prompt : List Char) : List Evaluation :=
  evaluatePreds d (roundPreds d papers prompt)

/-- The iteration record one round appends to the results list. -/
def roundResult (d : Driver) (papers : List Paper) (st : LoopState) (i : Nat) : IterationResult :=
  { iteration := i, prompt := st.systemPrompt
    predictions := roundPreds d papers st.systemPrompt
    evaluations := roundEvals d papers st.systemPrompt
    avgScore := averageScore ((roundEvals d papers st.systemPrompt).map Evaluation.score) }

/-- The best-so-far tracking invariant: the tracked best score is exactly
the maximum of the recorded rounds' average scores, and the tracked best
iteration and prompt come from a round attaining it. -/
def BestInv (st : LoopState) : Prop :=
  (st.results = [] ↔ st.bestScore = none) ∧
  ∀ m : ℚ, st.bestScore = some m →
    (∃ r ∈ st.results,
      st.bestIteration = some r.iteration ∧ st.bestPrompt = r.prompt ∧ r.avgScore = m) ∧
    ∀ r ∈ st.results, r.avgScore ≤ m

/-- A recorded round is internally consistent: its predictions come from
the validation papers, its evaluations from its predictions, and its score
is their average. -/
def RoundOK (d : Driver) (papers : List Paper) (r : IterationResult) : Prop :=
  r.predictions = roundPreds d papers r.prompt ∧
  r.evaluations = evaluatePreds d r.predictions ∧
  r.avgScore = averageScore (r.evaluations.map Evaluation.score)

/-- Recognizer for the in-memory per-iteration save events. -/
def isSaveIter : LoopEvent → Bool
  | .saveIter _ => true
  | _ => false

/-- A concrete driver used to evaluate the theorems at explicit inputs. -/
def d0 : Driver :=
  { mkZeroShot := fun s => s
    mkQuery := fun a => a
    generate := fun _ _ => []
    cleanNames := fun _ => []
    judge := fun _ => (1, [])
    mkMetaprompt := fun p _ => p
    improveLLM := fun p => 'x' :: p }

/-- A one-paper validation set for concrete evaluations. -/
def papers0 : List Paper := [{ abstract := [], gold := [] }]

/-- The iteration record `d0` produces on `papers0` in round `0`. -/
def c4res : IterationResult :=
  { iteration := 0, prompt := []
    predictions := [{ paper := { abstract := [], gold := [] }, predicted := [] }]
    evaluations := [{ score := 1, explanation := [] }], avgScore := 1 }

/- ## Lemmas about the Python split embedding -/

theorem startsWithL_append : ∀ (pat a b : List Char),
    startsWithL pat a = true → startsWithL pat (a ++ b) = true
  | [], _, _, _ => rfl
  | p :: ps, [], _, h => by simp [startsWithL] at h
  | p :: ps, c :: cs, b, h => by
    simp only [startsWithL, Bool.and_eq_true, beq_iff_eq] at h
    simp only [List.cons_append, startsWithL, Bool.and_eq_true, beq_iff_eq]
    exact ⟨h.1, startsWithL_append ps cs b h.2⟩

theorem occursIn_nil_pat (s : List Char) : occursIn [] s = true := by
  cases s <;> simp [occursIn, startsWithL, List.isEmpty]

theorem occursIn_append_right (pat a b : List Char) (h : occursIn pat b = true) :
    occursIn pat (a ++ b) = true := by
  induction a with
  | nil => simpa using h
  | cons c a ih =>
    simp only [List.cons_append, occursIn, Bool.or_eq_true]
    exact Or.inr ih

theorem occursIn_append_left (pat a b : List Char) (h : occursIn pat a = true) :
    occursIn pat (a ++ b) = true := by
  induction a with
  | nil =>
    simp only [occursIn, List.isEmpty_iff] at h
    subst h
    exact occursIn_nil_pat b
  | cons c a ih =>
    simp only [occursIn, Bool.or_eq_true] at h
    simp only [List.cons_append, occursIn, Bool.or_eq_true]
    rcases h with h | h
    · exact Or.inl (startsWithL_append pat (c :: a) b h)
    · exact Or.inr (ih h)

theorem occursIn_drop (pat l : List Char) (k : Nat) (h : occursIn pat (l.drop k) = true) :
    occursIn pat l = true := by
  have := occursIn_append_right pat (l.take k) (l.drop k) h
  rwa [List.take_append_drop] at this

theorem pySplitAux_ne_nil (sep : List Char) :
    ∀ (fuel : Nat) (s acc : List Char), pySplitAux sep fuel s acc ≠ [] := by
  intro fuel
  induction fuel with
  | zero => intro s acc; cases s <;> simp [pySplitAux]
  | succ f ih =>
    intro s acc
    cases s with
    | nil => simp [pySplitAux]
    | cons c rest =>
      simp only [pySplitAux]
      split
      · simp
      · exact ih rest (c :: acc)

theorem pySplitAux_length_one_iff (sep : List Char) (hsep : sep ≠ []) :
    ∀ (fuel : Nat) (s acc : List Char), s.length ≤ fuel →
      ((pySplitAux sep fuel s acc).length = 1 ↔ occursIn sep s = false) := by
  obtain ⟨p, ps, rfl⟩ := List.exists_cons_of_ne_nil hsep
  intro fuel
  induction fuel with
  | zero =>
    intro s acc hle
    have hs : s = [] := List.eq_nil_of_length_eq_zero (Nat.le_zero.mp hle)
    subst hs
    simp [pySplitAux, occursIn, List.isEmpty]
  | succ f ih =>
    intro s acc hle
    cases s with
    | nil => simp [pySplitAux, occursIn, List.isEmpty]
    | cons c rest =>
      simp only [pySplitAux, occursIn]
      split
      · rename_i hsw
        simp only [hsw, Bool.true_or, List.length_cons]
        constructor
        · intro hlen
          exact absurd (List.length_eq_zero.mp (Nat.succ_injective hlen))
            (pySplitAux_ne_nil (p :: ps) f (rest.drop ((p :: ps).length - 1)) [])
        · intro hF; exact absurd hF (by simp)
      · rename_i hsw
        rw [Bool.not_eq_true] at hsw
        simp only [hsw, Bool.false_or]
        exact ih rest (c :: acc) (Nat.le_of_succ_le_succ hle)

theorem pySplitAux_not_occurs (sep x : List Char) :
    ∀ (fuel : Nat) (s acc : List Char), occursIn x (acc.reverse ++ s) = false →
      ∀ t ∈ pySplitAux sep fuel s acc, occursIn x t = false := by
  intro fuel
  induction fuel with
  | zero =>
    intro s acc h t ht
    cases s with
    | nil =>
      simp only [pySplitAux, List.mem_singleton] at ht
      subst ht
      rwa [List.append_nil] at h
    | cons c rest =>
      simp only [pySplitAux, List.mem_singleton] at ht
      subst ht
      exact h
  | succ f ih =>
    intro s acc h t ht
    cases s with
    | nil =>
      simp only [pySplitAux, List.mem_singleton] at ht
      subst ht
      rwa [List.append_nil] at h
    | cons c rest =>
      simp only [pySplitAux] at ht
      split at ht
      · rcases List.mem_cons.mp ht with ht | ht
        · subst ht
          cases hb : occursIn x acc.reverse with
          | false => rfl
          | true => exact absurd (occursIn_append_left x acc.reverse (c :: rest) hb) (by simp [h])
        · refine ih (rest.drop (sep.length - 1)) [] ?_ t ht
          simp only [List.reverse_nil, List.nil_append]
          cases hb : occursIn x (rest.drop (sep.length - 1)) with
          | false => rfl
          | true =>
            have h1 : occursIn x rest = true := occursIn_drop x rest _ hb
            have h2 : occursIn x (c :: rest) = true := by
              simp only [occursIn, Bool.or_eq_true]; exact Or.inr h1
            exact absurd (occursIn_append_right x acc.reverse (c :: rest) h2) (by simp [h])
      · refine ih rest (c :: acc) ?_ t ht
        rwa [List.reverse_cons, List.append_assoc, List.singleton_append]

theorem pySplit_length_one_iff (sep s : List Char) (hsep : sep ≠ []) :
    (pySplit sep s).length = 1 ↔ occursIn sep s = false :=
  pySplitAux_length_one_iff sep hsep s.length s [] (Nat.le_refl _)

theorem pySplit_ne_nil (sep s : List Char) : pySplit sep s ≠ [] :=
  pySplitAux_ne_nil sep s.length s []

theorem pySplit_not_occurs (sep x s : List Char) (h : occursIn x s = false) :
    ∀ t ∈ pySplit sep s, occursIn x t = false := by
  refine pySplitAux_not_occurs sep x s.length s [] ?_
  simpa using h

theorem headD_mem_of_ne_nil {α : Type} (l : List α) (d : α) (h : l ≠ []) : l.headD d ∈ l := by
  cases l with
  | nil => exact absurd rfl h
  | cons a l => simp

theorem extract_some_occurs (r s : List Char) (h : extractFinalResponse r = some s) :
    occursIn response_delimiter r = true ∧ occursIn userRespMarker r = true := by
  unfold extractFinalResponse at h
  cases hseg : (pySplit response_delimiter r).get? 1 with
  | none => rw [hseg] at h; exact absurd h (by simp)
  | some seg =>
    rw [hseg] at h
    have hdel : occursIn response_delimiter r = true := by
      cases hb : occursIn response_delimiter r with
      | true => rfl
      | false =>
        have hlen : (pySplit response_delimiter r).length = 1 :=
          (pySplit_length_one_iff response_delimiter r (by decide)).mpr hb
        have : (pySplit response_delimiter r).get? 1 = none :=
          List.get?_eq_none.mpr (by omega)
        rw [this] at hseg
        exact absurd hseg (by simp)
    refine ⟨hdel, ?_⟩
    cases hb : occursIn userRespMarker r with
    | true => rfl
    | false =>
      have hsegmem : seg ∈ pySplit response_delimiter r := List.get?_mem hseg
      have hseg2 : occursIn userRespMarker seg = false :=
        pySplit_not_occurs response_delimiter userRespMarker r hb seg hsegmem
      have hmem2 : (pySplit response_delimiter_end seg).headD [] ∈ pySplit response_delimiter_end seg :=
        headD_mem_of_ne_nil _ [] (pySplit_ne_nil response_delimiter_end seg)
      have hseg3 : occursIn userRespMarker ((pySplit response_delimiter_end seg).headD []) = false :=
        pySplit_not_occurs response_delimiter_end userRespMarker seg hseg2 _ hmem2
      have hlen3 : (pySplit userRespMarker ((pySplit response_delimiter_end seg).headD [])).length = 1 :=
        (pySplit_length_one_iff userRespMarker _ (by decide)).mpr hseg3
      have hnone : (pySplit userRespMarker ((pySplit response_delimiter_end seg).headD [])).get? 1 = none :=
        List.get?_eq_none.mpr (by omega)
      have h2 : (match (pySplit userRespMarker ((pySplit response_delimiter_end seg).headD [])).get? 1 with
        | none => (none : Option (List Char))
        | some fin => some fin) = some s := h
      rw [hnone] at h2
      exact absurd h2 (by simp)

/-- Claim C10 (amended): the inner-monologue extraction never raises — it is
a total function into `Option`, the bare `except` turning every `IndexError`
into the fallback branch.  A response missing the opening `<response>`
delimiter takes the fallback branch, as does one missing the
`"Response to the user: "` prefix anywhere; and whenever the extraction
succeeds, both the opening delimiter and the prefix do occur in the
response.  (A response missing only the closing `</response>` delimiter is
NOT forced into the fallback branch: the `[0]` after the second split never
raises, so the segment simply extends to the end of the string.) -/
theorem cot_extract_fallback_exactly (r : List Char) :
    (occursIn response_delimiter r = false → extractFinalResponse r = none) ∧
    (occursIn userRespMarker r = false → extractFinalResponse r = none) ∧
    (∀ s, extractFinalResponse r = some s →
      occursIn response_delimiter r = true ∧ occursIn userRespMarker r = true) := by
  refine ⟨?_, ?_, fun s h => extract_some_occurs r s h⟩
  · intro hb
    have hlen : (pySplit response_delimiter r).length = 1 :=
      (pySplit_length_one_iff response_delimiter r (by decide)).mpr hb
    unfold extractFinalResponse
    have : (pySplit response_delimiter r).get? 1 = none :=
      List.get?_eq_none.mpr (by omega)
    rw [this]
  · intro hb
    cases hx : extractFinalResponse r with
    | none => rfl
    | some s => exact absurd (extract_some_occurs r s hx).2 (by simp [hb])

/-- Witness for C10's theorem at a concrete input: a response with no
delimiters at all takes the fallback branch. -/
theorem cot_extract_fallback_exactly_witness :
    occursIn response_delimiter ("The price is $6.99.".data) = false ∧
    extractFinalResponse ("The price is $6.99.".data) = none :=
  ⟨by decide, (cot_extract_fallback_exactly ("The price is $6.99.".data)).1 (by decide)⟩

/-- Counterexample to claim C10 as stated: this response is missing the
closing `</response>` delimiter, yet the extraction does NOT take the
fallback branch — it succeeds and returns `"hi"`, because `split(...)[0]`
cannot raise. -/
theorem cot_extract_missing_end_delimiter_counterexample :
    occursIn response_delimiter_end ("<response>Response to the user: hi".data) = false ∧
    extractFinalResponse ("<response>Response to the user: hi".data) = some ("hi".data) := by
  constructor
  · decide
  · decide

/- ## Lemmas about the weather tool and its JSON serialization -/

theorem escChar_plain (c : Char) (h : plainChar c) : escChar c = [c] := by
  obtain ⟨h1, h2, h3, h4⟩ := h
  unfold escChar
  rw [if_neg h3, if_neg h4, if_neg (by omega), if_neg (by omega), if_neg (by omega),
    if_neg (by omega), if_neg (by omega), if_pos ⟨h1, h2⟩]

theorem jsonEscape_plain (s : List Char) (h : ∀ c ∈ s, plainChar c) : jsonEscape s = s := by
  induction s with
  | nil => rfl
  | cons c cs ih =>
    simp only [jsonEscape]
    rw [escChar_plain c (h c (List.mem_cons_self c cs)),
      ih (fun x hx => h x (List.mem_cons_of_mem c hx))]
    rfl

theorem intercalate_three (sep a b c : List Char) :
    List.intercalate sep [a, b, c] = a ++ (sep ++ (b ++ (sep ++ (c ++ [])))) := rfl

/-- Claim C8: `get_current_weather` is a total deterministic function whose
result is the JSON serialization of a dict with exactly the keys
`location`, `temperature` and `unit`, in that order; the `location` value
is the input unchanged, the `temperature` value is the string `"50"`, and a
call without a `unit` argument uses the default `"fahrenheit"`.  For inputs
made of characters the encoder passes through unchanged, the serialized
output is exactly the braced, quoted, comma-separated rendering of those
three pairs. -/
theorem weather_tool_spec (location unit : List Char) :
    (weatherDict location unit).map Prod.fst =
      ["location".data, "temperature".data, "unit".data] ∧
    lookupStr "location".data (weatherDict location unit) = some location ∧
    lookupStr "temperature".data (weatherDict location unit) = some "50".data ∧
    lookupStr "unit".data (weatherDict location unit) = some unit ∧
    get_current_weather1 location = get_current_weather location "fahrenheit".data ∧
    get_current_weather location unit = jsonDumps (weatherDict location unit) ∧
    ((∀ c ∈ location, plainChar c) → (∀ c ∈ unit, plainChar c) →
      get_current_weather location unit =
        Char.ofNat 123 ::
          (quoteJ "location".data ++ ':' :: ' ' :: quoteJ location ++ ',' :: ' ' ::
           quoteJ "temperature".data ++ ':' :: ' ' :: quoteJ "50".data ++ ',' :: ' ' ::
           quoteJ "unit".data ++ ':' :: ' ' :: quoteJ unit) ++ [Char.ofNat 125]) := by
  refine ⟨rfl, ?_, ?_, ?_, rfl, rfl, ?_⟩
  · simp [weatherDict, lookupStr]
  · simp [weatherDict, lookupStr]
  · simp [weatherDict, lookupStr]
  · intro hl hu
    have el : jsonEscape location = location := jsonEscape_plain location hl
    have eu : jsonEscape unit = unit := jsonEscape_plain unit hu
    simp only [get_current_weather, jsonDumps, weatherDict, List.map, renderPair, el, eu,
      show jsonEscape "location".data = "location".data from by decide,
      show jsonEscape "temperature".data = "temperature".data from by decide,
      show jsonEscape "unit".data = "unit".data from by decide,
      show jsonEscape "50".data = "50".data from by decide]
    rw [intercalate_three]
    simp [List.append_assoc]

/-- Witness for C8's theorem: the plain-characters case evaluated at
`location = "Boston, MA"` and `unit = "celsius"`. -/
theorem weather_tool_spec_witness :
    (∀ c ∈ "Boston, MA".data, plainChar c) ∧ (∀ c ∈ "celsius".data, plainChar c) ∧
    get_current_weather "Boston, MA".data "celsius".data =
      Char.ofNat 123 ::
        (quoteJ "location".data ++ ':' :: ' ' :: quoteJ "Boston, MA".data ++ ',' :: ' ' ::
         quoteJ "temperature".data ++ ':' :: ' ' :: quoteJ "50".data ++ ',' :: ' ' ::
         quoteJ "unit".data ++ ':' :: ' ' :: quoteJ "celsius".data) ++ [Char.ofNat 125] :=
  ⟨by decide, by decide,
    (weather_tool_spec "Boston, MA".data "celsius".data).2.2.2.2.2.2 (by decide) (by decide)⟩

/-- Claim C9: in the model-feedback walkthrough the tool is called with the
raw JSON arguments string as its `location` parameter, so the appended
`tool`-role message's content is the weather JSON whose `location` field
holds the entire arguments string `'{"location":"Boston, MA"}'` — not the
parsed location `"Boston, MA"`. -/
theorem feedback_cell_raw_args :
    feedbackToolMessage.role = "tool".data ∧
    feedbackToolMessage.content = get_current_weather bostonArgs defaultUnit ∧
    lookupStr "location".data (weatherDict bostonArgs defaultUnit) = some bostonArgs ∧
    bostonArgs ≠ "Boston, MA".data ∧
    feedbackToolMessage.content =
      ("\x7b\"location\": \"\x7b\\\"location\\\":\\\"Boston, MA\\\"\x7d\", \"temperature\": \"50\", \"unit\": \"fahrenheit\"\x7d").data := by
  refine ⟨rfl, rfl, by decide, by decide, by decide⟩

/- ## Lemmas about the pure optimization loop -/

theorem runRound_trace (d : Driver) (papers : List Paper) (n : Nat) (st : LoopState) (i : Nat) :
    (runRound d papers n st i).2 = roundShape papers.length n i := by
  simp [runRound, roundShape, generatePreds]

theorem runRounds_trace (d : Driver) (papers : List Paper) (n : Nat) :
    ∀ (l : List Nat) (st : LoopState),
      (runRounds d papers n st l).2 = (l.map (roundShape papers.length n)).flatten := by
  intro l
  induction l with
  | nil => intro st; rfl
  | cons i l ih =>
    intro st
    simp [runRounds, runRound_trace, ih]

theorem program_trace (d : Driver) (papers : List Paper) (n : Nat) (initPrompt : List Char) :
    (program d papers n initPrompt).2 =
      ((List.range n).map (roundShape papers.length n)).flatten ++ [LoopEvent.saveFinal] := by
  simp [program, runRounds_trace]

theorem runRound_results (d : Driver) (papers : List Paper) (n : Nat) (st : LoopState) (i : Nat) :
    (runRound d papers n st i).1.results = st.results ++ [roundResult d papers st i] := by
  simp only [runRound, roundResult, roundPreds, roundEvals]
  split <;> split <;> rfl

theorem runRound_systemPrompt_last (d : Driver) (papers : List Paper) (n : Nat) (st : LoopState)
    (i : Nat) (h : i + 1 = n) : (runRound d papers n st i).1.systemPrompt = st.systemPrompt := by
  simp only [runRound]
  rw [if_pos h]
  split <;> rfl

theorem runRound_systemPrompt_improve (d : Driver) (papers : List Paper) (n : Nat) (st : LoopState)
    (i : Nat) (h : ¬ i + 1 = n) :
    (runRound d papers n st i).1.systemPrompt =
      d.improveLLM (d.mkMetaprompt st.systemPrompt (roundEvals d papers st.systemPrompt)) := by
  simp only [runRound, roundEvals, roundPreds]
  rw [if_neg h]
  split <;> rfl

theorem runRound_best_updates (d : Driver) (papers : List Paper) (n : Nat) (st : LoopState)
    (i : Nat) (h : beats (roundAvg d papers st.systemPrompt) st.bestScore = true) :
    (runRound d papers n st i).1.bestScore = some (roundAvg d papers st.systemPrompt) ∧
    (runRound d papers n st i).1.bestPrompt = st.systemPrompt ∧
    (runRound d papers n st i).1.bestIteration = some i := by
  simp only [roundAvg, evaluatePreds, generatePreds] at h
  simp only [runRound, roundAvg, evaluatePreds, generatePreds]
  rw [if_pos h]
  split <;> exact ⟨rfl, rfl, rfl⟩

theorem runRound_best_keeps (d : Driver) (papers : List Paper) (n : Nat) (st : LoopState)
    (i : Nat) (h : beats (roundAvg d papers st.systemPrompt) st.bestScore = false) :
    (runRound d papers n st i).1.bestScore = st.bestScore ∧
    (runRound d papers n st i).1.bestPrompt = st.bestPrompt ∧
    (runRound d papers n st i).1.bestIteration = st.bestIteration := by
  simp only [roundAvg, evaluatePreds, generatePreds] at h
  simp only [runRound, roundAvg, evaluatePreds, generatePreds]
  split <;> split <;>
    first
      | exact ⟨rfl, rfl, rfl⟩
      | (rename_i hbeats; simp only [List.map_map] at h hbeats; simp [h] at hbeats)

theorem roundResult_avg (d : Driver) (papers : List Paper) (st : LoopState) (i : Nat) :
    (roundResult d papers st i).avgScore = roundAvg d papers st.systemPrompt := rfl

theorem runRounds_results_length (d : Driver) (papers : List Paper) (n : Nat) :
    ∀ (l : List Nat) (st : LoopState),
      (runRounds d papers n st l).1.results.length = st.results.length + l.length := by
  intro l
  induction l with
  | nil => intro st; simp [runRounds]
  | cons i l ih =>
    intro st
    have := ih (runRound d papers n st i).1
    simp only [runRounds]
    rw [this, runRound_results]
    simp
    omega

theorem runRound_preserves_BestInv (d : Driver) (papers : List Paper) (n : Nat) (st : LoopState)
    (i : Nat) (h : BestInv st) : BestInv (runRound d papers n st i).1 := by
  obtain ⟨hEmp, hBest⟩ := h
  have hres := runRound_results d papers n st i
  cases hb : beats (roundAvg d papers st.systemPrompt) st.bestScore with
  | false =>
    obtain ⟨h1, h2, h3⟩ := runRound_best_keeps d papers n st i hb
    obtain ⟨b, hsb⟩ : ∃ b, st.bestScore = some b := by
      cases hsb : st.bestScore with
      | none => rw [hsb] at hb; exact absurd hb (by simp [beats])
      | some b => exact ⟨b, rfl⟩
    constructor
    · rw [hres, h1, hsb]
      constructor
      · intro hx; exact absurd hx (by simp)
      · intro hx; exact absurd hx (by simp)
    · intro m hm
      rw [h1, hsb] at hm
      have hbm : b = m := by injection hm
      subst hbm
      obtain ⟨hw, hbound⟩ := hBest b hsb
      constructor
      · obtain ⟨r, hr, hrit, hrp, hrv⟩ := hw
        exact ⟨r, by rw [hres]; exact List.mem_append_left _ hr,
          by rw [h3]; exact hrit, by rw [h2]; exact hrp, hrv⟩
      · intro r hr
        rw [hres] at hr
        rcases List.mem_append.mp hr with hr | hr
        · exact hbound r hr
        · rw [List.mem_singleton.mp hr, roundResult_avg]
          rw [hsb] at hb
          simp only [beats] at hb
          exact le_of_not_lt (of_decide_eq_false hb)
  | true =>
    obtain ⟨h1, h2, h3⟩ := runRound_best_updates d papers n st i hb
    constructor
    · rw [hres, h1]
      constructor
      · intro hx; exact absurd hx (by simp)
      · intro hx; exact absurd hx (by simp)
    · intro m hm
      rw [h1] at hm
      injection hm with hm2
      constructor
      · refine ⟨roundResult d papers st i, ?_, ?_, ?_, ?_⟩
        · rw [hres]; exact List.mem_append_right _ (List.mem_singleton_self _)
        · rw [h3]; rfl
        · rw [h2]; rfl
        · rw [roundResult_avg, hm2]
      · intro r hr
        rw [hres] at hr
        rcases List.mem_append.mp hr with hr | hr
        · cases hsb : st.bestScore with
          | none =>
            have hnil : st.results = [] := hEmp.mpr hsb
            rw [hnil] at hr
            exact absurd hr (by simp)
          | some b =>
            have hbound := (hBest b hsb).2 r hr
            rw [hsb] at hb
            simp only [beats] at hb
            calc r.avgScore ≤ b := hbound
              _ ≤ roundAvg d papers st.systemPrompt := le_of_lt (of_decide_eq_true hb)
              _ = m := hm2
        · rw [List.mem_singleton.mp hr, roundResult_avg, hm2]
  
theorem runRounds_preserves_BestInv (d : Driver) (papers : List Paper) (n : Nat) :
    ∀ (l : List Nat) (st : LoopState), BestInv st → BestInv (runRounds d papers n st l).1 := by
  intro l
  induction l with
  | nil => intro st h; exact h
  | cons i l ih =>
    intro st h
    exact ih _ (runRound_preserves_BestInv d papers n st i h)

theorem initLoopState_BestInv (initPrompt : List Char) : BestInv (initLoopState initPrompt) := by
  constructor
  · simp [initLoopState]
  · intro m hm
    exact absurd hm (by simp [initLoopState])

/-- Claim C1: after every completed round, the tracked best score is the
maximum of the per-round average scores seen so far, and the tracked best
prompt and best iteration belong to a recorded round attaining that
maximum; moreover a round updates the best-so-far variables exactly when
its average beats the running maximum (the first round, with no maximum
recorded yet, always updates). -/
theorem best_tracking_invariant (d : Driver) (papers : List Paper) (n : Nat)
    (initPrompt : List Char) :
    BestInv (program d papers n initPrompt).1 ∧
    (∀ k : Nat, BestInv (runRounds d papers n (initLoopState initPrompt) (List.range k)).1) ∧
    ∀ (st : LoopState) (i : Nat),
      (beats (roundAvg d papers st.systemPrompt) st.bestScore = true →
        (runRound d papers n st i).1.bestScore = some (roundAvg d papers st.systemPrompt) ∧
        (runRound d papers n st i).1.bestPrompt = st.systemPrompt ∧
        (runRound d papers n st i).1.bestIteration = some i) ∧
      (beats (roundAvg d papers st.systemPrompt) st.bestScore = false →
        (runRound d papers n st i).1.bestScore = st.bestScore ∧
        (runRound d papers n st i).1.bestPrompt = st.bestPrompt ∧
        (runRound d papers n st i).1.bestIteration = st.bestIteration) := by
  refine ⟨?_, ?_, ?_⟩
  · exact runRounds_preserves_BestInv d papers n (List.range n) _ (initLoopState_BestInv initPrompt)
  · intro k
    exact runRounds_preserves_BestInv d papers n (List.range k) _ (initLoopState_BestInv initPrompt)
  · intro st i
    exact ⟨runRound_best_updates d papers n st i, runRound_best_keeps d papers n st i⟩

theorem run2_bestScore_eval :
    (runRounds d0 papers0 2 (initLoopState []) (List.range 2)).1.bestScore = some 1 := by
  norm_num [runRounds, runRound, generatePreds, evaluatePreds, averageScore, beats, d0,
    papers0, initLoopState, List.range_succ]

/-- Witness for C1's theorem: after two rounds of the concrete driver the
best score is `1`, and the invariant instantiates there. -/
theorem best_tracking_invariant_witness :
    (runRounds d0 papers0 2 (initLoopState []) (List.range 2)).1.bestScore = some 1 ∧
    ((∃ r ∈ (runRounds d0 papers0 2 (initLoopState []) (List.range 2)).1.results,
        (runRounds d0 papers0 2 (initLoopState []) (List.range 2)).1.bestIteration = some r.iteration ∧
        (runRounds d0 papers0 2 (initLoopState []) (List.range 2)).1.bestPrompt = r.prompt ∧
        r.avgScore = 1) ∧
      ∀ r ∈ (runRounds d0 papers0 2 (initLoopState []) (List.range 2)).1.results,
        r.avgScore ≤ 1) :=
  ⟨run2_bestScore_eval, ((best_tracking_invariant d0 papers0 2 []).2.1 2).2 1 run2_bestScore_eval⟩

theorem roundResult_RoundOK (d : Driver) (papers : List Paper) (st : LoopState) (i : Nat) :
    RoundOK d papers (roundResult d papers st i) := ⟨rfl, rfl, rfl⟩

theorem runRounds_preserves_RoundOK (d : Driver) (papers : List Paper) (n : Nat) :
    ∀ (l : List Nat) (st : LoopState), (∀ r ∈ st.results, RoundOK d papers r) →
      ∀ r ∈ (runRounds d papers n st l).1.results, RoundOK d papers r := by
  intro l
  induction l with
  | nil => intro st h; exact h
  | cons i l ih =>
    intro st h
    refine ih _ ?_
    intro r hr
    rw [runRound_results] at hr
    rcases List.mem_append.mp hr with hr | hr
    · exact h r hr
    · rw [List.mem_singleton.mp hr]
      exact roundResult_RoundOK d papers st i

/-- Claim C4: every recorded round has exactly one prediction per
validation paper (in order), exactly one judge evaluation per prediction,
and its score is the arithmetic average — sum divided by count — of the
per-prediction judge scores (the division is only meaningful for a
non-empty validation set; in Python an empty one would raise
`ZeroDivisionError`). -/
theorem round_scoring (d : Driver) (papers : List Paper) (n : Nat) (initPrompt : List Char) :
    ∀ r ∈ (program d papers n initPrompt).1.results,
      r.predictions.map Prediction.paper = papers ∧
      r.predictions.length = papers.length ∧
      r.evaluations.length = r.predictions.length ∧
      r.evaluations = evaluatePreds d r.predictions ∧
      (papers ≠ [] →
        r.avgScore = (r.evaluations.map Evaluation.score).sum /
          ((r.evaluations.map Evaluation.score).length : ℚ)) := by
  intro r hr
  have hr2 : r ∈ (runRounds d papers n (initLoopState initPrompt) (List.range n)).1.results := hr
  have hok : RoundOK d papers r := by
    refine runRounds_preserves_RoundOK d papers n (List.range n) (initLoopState initPrompt)
      ?_ r hr2
    intro x hx
    exact absurd hx (by simp [initLoopState])
  obtain ⟨hp, he, ha⟩ := hok
  refine ⟨?_, ?_, ?_, he, ?_⟩
  · rw [hp]
    simp [roundPreds, generatePreds, List.map_map, Function.comp_def]
  · rw [hp]
    simp [roundPreds, generatePreds]
  · rw [he]
    simp [evaluatePreds]
  · intro _
    rw [ha]
    rfl

theorem program1_results_eval : (program d0 papers0 1 []).1.results = [c4res] := by
  norm_num [program, runRounds, runRound, generatePreds, evaluatePreds, averageScore, beats,
    d0, papers0, initLoopState, c4res, List.range_succ]

/-- Witness for C4's theorem: the single round of the concrete driver on
the one-paper validation set. -/
theorem round_scoring_witness :
    c4res ∈ (program d0 papers0 1 []).1.results ∧ papers0 ≠ [] ∧
    c4res.avgScore = (c4res.evaluations.map Evaluation.score).sum /
      ((c4res.evaluations.map Evaluation.score).length : ℚ) :=
  ⟨by rw [program1_results_eval]; exact List.mem_singleton_self _, by decide,
    (round_scoring d0 papers0 1 [] c4res
      (by rw [program1_results_eval]; exact List.mem_singleton_self _)).2.2.2.2 (by decide)⟩

theorem countP_roundShape (plen n i : Nat) : (roundShape plen n i).countP isSaveIter = 1 := by
  have hg : (genTrace i 0 plen).countP isSaveIter = 0 := by
    rw [List.countP_eq_zero]
    intro e he
    simp only [genTrace, List.mem_map] at he
    obtain ⟨j, _, rfl⟩ := he
    simp [isSaveIter]
  have hj : (judTrace i 0 plen).countP isSaveIter = 0 := by
    rw [List.countP_eq_zero]
    intro e he
    simp only [judTrace, List.mem_map] at he
    obtain ⟨j, _, rfl⟩ := he
    simp [isSaveIter]
  have hi : (if i + 1 = n then ([] : List LoopEvent) else [LoopEvent.improveCall i]).countP
      isSaveIter = 0 := by
    split <;> simp [isSaveIter]
  simp [roundShape, List.countP_cons, List.countP_append, hg, hj, hi, isSaveIter]

theorem countP_flatten_rounds (plen n : Nat) :
    ∀ l : List Nat, ((l.map (roundShape plen n)).flatten).countP isSaveIter = l.length := by
  intro l
  induction l with
  | nil => rfl
  | cons i l ih =>
    simp [List.countP_append, countP_roundShape, ih]
    omega

/-- Claim C3: the loop terminates after exactly the configured number of
rounds — `n` iteration records are produced, the run's event trace holds
exactly `n` per-iteration saves, and the trace ends with the final-results
step. -/
theorem loop_fixed_rounds (d : Driver) (papers : List Paper) (n : Nat) (initPrompt : List Char) :
    (program d papers n initPrompt).1.results.length = n ∧
    (program d papers n initPrompt).2.countP isSaveIter = n ∧
    (program d papers n initPrompt).2.getLast? = some LoopEvent.saveFinal := by
  refine ⟨?_, ?_, ?_⟩
  · have := runRounds_results_length d papers n (List.range n) (initLoopState initPrompt)
    simpa [initLoopState] using this
  · rw [program_trace, List.countP_append, countP_flatten_rounds papers.length n (List.range n)]
    simp [isSaveIter]
  · rw [program_trace]
    exact List.getLast?_concat _

theorem mem_roundShape (plen n i : Nat) (e : LoopEvent) (he : e ∈ roundShape plen n i) :
    storageEvent e = false ∧ 8 * i ≤ eventKey n e ∧ eventKey n e ≤ 8 * i + 5 := by
  by_cases hlast : i + 1 = n
  · simp only [roundShape, if_pos hlast] at he
    simp only [List.mem_cons, List.mem_append, genTrace, judTrace, List.mem_map,
      List.append_nil, List.not_mem_nil, or_false] at he
    rcases he with rfl | (⟨j, hj, rfl⟩ | ⟨j, hj, rfl⟩) | rfl | rfl
    · refine ⟨rfl, ?_, ?_⟩ <;> (simp only [eventKey]; omega)
    · refine ⟨rfl, ?_, ?_⟩ <;> (simp only [eventKey]; omega)
    · refine ⟨rfl, ?_, ?_⟩ <;> (simp only [eventKey]; omega)
    · refine ⟨rfl, ?_, ?_⟩ <;> (simp only [eventKey]; omega)
    · refine ⟨rfl, ?_, ?_⟩ <;> (simp only [eventKey]; omega)
  · simp only [roundShape, if_neg hlast] at he
    simp only [List.mem_cons, List.mem_append, genTrace, judTrace, List.mem_map,
      List.mem_singleton, List.not_mem_nil, or_false] at he
    rcases he with rfl | ((⟨j, hj, rfl⟩ | ⟨j, hj, rfl⟩) | rfl | rfl) | rfl
    · refine ⟨rfl, ?_, ?_⟩ <;> (simp only [eventKey]; omega)
    · refine ⟨rfl, ?_, ?_⟩ <;> (simp only [eventKey]; omega)
    · refine ⟨rfl, ?_, ?_⟩ <;> (simp only [eventKey]; omega)
    · refine ⟨rfl, ?_, ?_⟩ <;> (simp only [eventKey]; omega)
    · refine ⟨rfl, ?_, ?_⟩ <;> (simp only [eventKey]; omega)
    · refine ⟨rfl, ?_, ?_⟩ <;> (simp only [eventKey]; omega)

/-- Claim C6: the only storage effect in a run is the single final JSON
dump, and it is the very last event — nothing is written to storage while
the loop is still running (the per-iteration node I saves into the
in-memory results list, which the spec's "no persistence contract beyond
dumping JSON at the end" pins down as non-storage). -/
theorem single_final_persistence (d : Driver) (papers : List Paper) (n : Nat)
    (initPrompt : List Char) :
    (program d papers n initPrompt).2.filter storageEvent = [LoopEvent.saveFinal] ∧
    (program d papers n initPrompt).2.getLast? = some LoopEvent.saveFinal := by
  constructor
  · rw [program_trace, List.filter_append]
    have h1 : (((List.range n).map (roundShape papers.length n)).flatten).filter storageEvent
        = [] := by
      rw [List.filter_eq_nil_iff]
      intro e he
      rw [List.mem_flatten] at he
      obtain ⟨chunk, hc, hec⟩ := he
      rw [List.mem_map] at hc
      obtain ⟨i, _, rfl⟩ := hc
      have h := (mem_roundShape papers.length n i e hec).1
      simp [h]
    rw [h1]
    rfl
  · rw [program_trace]
    exact List.getLast?_concat _

theorem pairwise_of_all {α : Type} (R : α → α → Prop) :
    ∀ l : List α, (∀ x ∈ l, ∀ y ∈ l, R x y) → l.Pairwise R := by
  intro l
  induction l with
  | nil => intro _; exact List.Pairwise.nil
  | cons a l ih =>
    intro h
    refine List.Pairwise.cons ?_ (ih ?_)
    · intro y hy; exact h a (by simp) y (by simp [hy])
    · intro x hx y hy; exact h x (by simp [hx]) y (by simp [hy])

theorem pairwise_roundShape (plen n i : Nat) :
    (roundShape plen n i).Pairwise (fun a b => eventKey n a ≤ eventKey n b) := by
  have hgen : ∀ e ∈ genTrace i 0 plen, eventKey n e = 8 * i + 1 := by
    intro e he
    simp only [genTrace, List.mem_map] at he
    obtain ⟨j, _, rfl⟩ := he
    rfl
  have hjud : ∀ e ∈ judTrace i 0 plen, eventKey n e = 8 * i + 2 := by
    intro e he
    simp only [judTrace, List.mem_map] at he
    obtain ⟨j, _, rfl⟩ := he
    rfl
  have himp : ∀ e ∈ (if i + 1 = n then ([] : List LoopEvent) else [LoopEvent.improveCall i]),
      eventKey n e = 8 * i + 5 := by
    intro e he
    split at he
    · exact absurd he (List.not_mem_nil e)
    · rw [List.mem_singleton.mp he]; rfl
  have hsb : ∀ e ∈ [LoopEvent.saveIter i, LoopEvent.bestCheck i],
      8 * i + 3 ≤ eventKey n e ∧ eventKey n e ≤ 8 * i + 4 := by
    intro e he
    rcases List.mem_cons.mp he with rfl | he
    · constructor <;> (simp only [eventKey]; omega)
    · rw [List.mem_singleton.mp he]
      constructor <;> (simp only [eventKey]; omega)
  refine List.Pairwise.cons ?_ ?_
  · intro e he
    have h8 := (mem_roundShape plen n i e (List.mem_cons_of_mem _ he)).2.1
    have hcp : eventKey n (LoopEvent.constructPrompt i) = 8 * i := rfl
    omega
  · refine List.pairwise_append.mpr ⟨?_, ?_, ?_⟩
    · refine List.pairwise_append.mpr ⟨?_, ?_, ?_⟩
      · refine List.pairwise_append.mpr ⟨?_, ?_, ?_⟩
        · refine pairwise_of_all _ _ ?_
          intro x hx y hy
          rw [hgen x hx, hgen y hy]
        · refine pairwise_of_all _ _ ?_
          intro x hx y hy
          rw [hjud x hx, hjud y hy]
        · intro x hx y hy
          have h1 := hgen x hx
          have h2 := hjud y hy
          omega
      · refine List.Pairwise.cons ?_
          (List.Pairwise.cons (fun y hy => absurd hy (List.not_mem_nil y)) List.Pairwise.nil)
        intro y hy
        rw [List.mem_singleton.mp hy]
        simp only [eventKey]
        omega
      · intro x hx y hy
        have h2 := hsb y hy
        rcases List.mem_append.mp hx with hx | hx
        · have h1 := hgen x hx
          omega
        · have h1 := hjud x hx
          omega
    · split
      · exact List.Pairwise.nil
      · exact List.pairwise_singleton _ _
    · intro x hx y hy
      have h5 := himp y hy
      rcases List.mem_append.mp hx with hx | hx
      · rcases List.mem_append.mp hx with hx | hx
        · have h1 := hgen x hx
          omega
        · have h1 := hjud x hx
          omega
      · have h1 := hsb x hx
        omega

theorem program_trace_pairwise (d : Driver) (papers : List Paper) (n : Nat)
    (initPrompt : List Char) :
    ((program d papers n initPrompt).2).Pairwise (fun a b => eventKey n a ≤ eventKey n b) := by
  rw [program_trace]
  refine List.pairwise_append.mpr ⟨?_, ?_, ?_⟩
  · rw [List.pairwise_flatten]
    constructor
    · intro chunk hc
      rw [List.mem_map] at hc
      obtain ⟨i, _, rfl⟩ := hc
      exact pairwise_roundShape papers.length n i
    · rw [List.pairwise_map]
      refine (List.pairwise_lt_range n).imp ?_
      intro i j hij x hx y hy
      have h1 := (mem_roundShape papers.length n i x hx).2.2
      have h2 := (mem_roundShape papers.length n j y hy).2.1
      omega
  · exact List.pairwise_singleton _ _
  · intro a ha b hb
    rw [List.mem_singleton.mp hb]
    rw [List.mem_flatten] at ha
    obtain ⟨chunk, hc, hac⟩ := ha
    rw [List.mem_map] at hc
    obtain ⟨i, hi, rfl⟩ := hc
    have h1 := (mem_roundShape papers.length n i a hac).2.2
    have h2 : i < n := List.mem_range.mp hi
    have hsf : eventKey n LoopEvent.saveFinal = 8 * n + 6 := rfl
    omega

/-- Claim C2: a run is a strict sequence of identically-shaped rounds with
no overlap: the trace is exactly the concatenation, in round order, of each
round's block — construct prompt, the generate calls, the judge calls, the
iteration save, the best-score check, and (except in the last round) the
improve-prompt call — followed by the final save; and the whole trace is
sorted by the lexicographic (round, step) key, so every event of a round
precedes every event of all later rounds. -/
theorem loop_sequential_structure (d : Driver) (papers : List Paper) (n : Nat)
    (initPrompt : List Char) :
    (program d papers n initPrompt).2 =
      ((List.range n).map (roundShape papers.length n)).flatten ++ [LoopEvent.saveFinal] ∧
    ((program d papers n initPrompt).2).Pairwise (fun a b => eventKey n a ≤ eventKey n b) :=
  ⟨program_trace d papers n initPrompt, program_trace_pairwise d papers n initPrompt⟩

theorem runRounds_chain (d : Driver) (papers : List Paper) (n : Nat) :
    ∀ (k a : Nat) (st : LoopState), a + k = n →
      List.Chain' (fun r r2 => r2.prompt = d.improveLLM (d.mkMetaprompt r.prompt r.evaluations))
        st.results →
      (0 < k → ∀ rl, st.results.getLast? = some rl →
        st.systemPrompt = d.improveLLM (d.mkMetaprompt rl.prompt rl.evaluations)) →
      List.Chain' (fun r r2 => r2.prompt = d.improveLLM (d.mkMetaprompt r.prompt r.evaluations))
        (runRounds d papers n st (List.range' a k)).1.results := by
  intro k
  induction k with
  | zero =>
    intro a st _ hch _
    exact hch
  | succ k ih =>
    intro a st hn hch hlink
    have hrange : List.range' a (k + 1) = a :: List.range' (a + 1) k := rfl
    rw [hrange]
    simp only [runRounds]
    have hch2 : List.Chain'
        (fun r r2 => r2.prompt = d.improveLLM (d.mkMetaprompt r.prompt r.evaluations))
        (runRound d papers n st a).1.results := by
      rw [runRound_results, List.chain'_append]
      refine ⟨hch, List.chain'_singleton _, ?_⟩
      intro x hx y hy
      have hy2 : y = roundResult d papers st a := by
        have := hy
        simp only [List.head?_cons, Option.mem_def, Option.some.injEq] at this
        exact this.symm
      subst hy2
      exact hlink (Nat.succ_pos k) x (by simpa using hx)
    refine ih (a + 1) (runRound d papers n st a).1 (by omega) hch2 ?_
    intro hk rl hrl
    rw [runRound_results, List.getLast?_concat] at hrl
    have hrl2 : rl = roundResult d papers st a := by
      injection hrl with h
      exact h.symm
    subst hrl2
    have hne : ¬ a + 1 = n := by omega
    exact runRound_systemPrompt_improve d papers n st a hne

/-- Claim C5: every round's improve-prompt step receives the metaprompt
built from the current prompt together with all of that round's
evaluations, and its output is exactly the system prompt the next round
records — consecutive iteration records are linked by
`next.prompt = improveLLM (mkMetaprompt current.prompt current.evaluations)`. -/
theorem metaprompt_chain (d : Driver) (papers : List Paper) (n : Nat) (initPrompt : List Char) :
    List.Chain' (fun r r2 => r2.prompt = d.improveLLM (d.mkMetaprompt r.prompt r.evaluations))
      (program d papers n initPrompt).1.results := by
  have h := runRounds_chain d papers n n 0 (initLoopState initPrompt) (by omega)
    (by simp [initLoopState]) ?_
  · have h2 : (program d papers n initPrompt).1 =
        (runRounds d papers n (initLoopState initPrompt) (List.range n)).1 := rfl
    rw [h2, show (List.range n) = List.range' 0 n from List.range_eq_range' n]
    exact h
  · intro _ rl hrl
    exact absurd hrl (by simp [initLoopState])

/- ## Lemmas about the fallible loop (claim C7) -/

theorem injectFail_generate {ε : Type} (d : Driver) (s : StepId) (e : ε) :
    (injectFail d s e).generate =
      fun i j full q => if s = StepId.gen i j then Except.error e
        else Except.ok (d.generate full q) := rfl

theorem injectFail_judge {ε : Type} (d : Driver) (s : StepId) (e : ε) :
    (injectFail d s e).judge =
      fun i j pr => if s = StepId.jud i j then Except.error e
        else Except.ok (d.judge pr) := rfl

theorem injectFail_improveLLM {ε : Type} (d : Driver) (s : StepId) (e : ε) :
    (injectFail d s e).improveLLM =
      fun i mp => if s = StepId.imp i then Except.error e
        else Except.ok (d.improveLLM mp) := rfl

theorem injectFail_mkZeroShot {ε : Type} (d : Driver) (s : StepId) (e : ε) :
    (injectFail d s e).mkZeroShot = d.mkZeroShot := rfl

theorem injectFail_mkQuery {ε : Type} (d : Driver) (s : StepId) (e : ε) :
    (injectFail d s e).mkQuery = d.mkQuery := rfl

theorem injectFail_cleanNames {ε : Type} (d : Driver) (s : StepId) (e : ε) :
    (injectFail d s e).cleanNames = d.cleanNames := rfl

theorem injectFail_mkMetaprompt {ε : Type} (d : Driver) (s : StepId) (e : ε) :
    (injectFail d s e).mkMetaprompt = d.mkMetaprompt := rfl

theorem genAux_ok {ε : Type} (d : Driver) (s : StepId) (e : ε) (i : Nat) (full : List Char)
    (hs : ∀ j, s ≠ StepId.gen i j) :
    ∀ (ps : List Paper) (j : Nat),
      genAux (injectFail d s e) i full j ps =
        (genTrace i j ps.length, .ok (generatePreds d full ps)) := by
  intro ps
  induction ps with
  | nil => intro j; rfl
  | cons p ps ih =>
    intro j
    simp only [genAux, injectFail_generate, injectFail_mkQuery, injectFail_cleanNames]
    rw [if_neg (hs j)]
    simp only [ih (j + 1), Except.map]
    simp [genTrace, generatePreds, List.range'_succ]

theorem genAux_fail {ε : Type} (d : Driver) (e : ε) (i jf : Nat) (full : List Char) :
    ∀ (ps : List Paper) (j : Nat), j ≤ jf → jf < j + ps.length →
      genAux (injectFail d (StepId.gen i jf) e) i full j ps =
        (genTrace i j (jf - j + 1), .error e) := by
  intro ps
  induction ps with
  | nil =>
    intro j h1 h2
    simp only [List.length_nil] at h2
    omega
  | cons p ps ih =>
    intro j h1 h2
    simp only [genAux, injectFail_generate, injectFail_mkQuery, injectFail_cleanNames]
    by_cases hj : jf = j
    · subst hj
      rw [if_pos rfl]
      have hone : jf - jf + 1 = 1 := by omega
      rw [hone]
      simp [genTrace]
    · rw [if_neg (by simp only [StepId.gen.injEq]; omega)]
      simp only [ih (j + 1) (by omega) (by simp only [List.length_cons] at h2; omega), Except.map]
      have harith : jf - j + 1 = (jf - (j + 1) + 1) + 1 := by omega
      rw [harith]
      simp [genTrace, List.range'_succ]

theorem judAux_ok {ε : Type} (d : Driver) (s : StepId) (e : ε) (i : Nat)
    (hs : ∀ j, s ≠ StepId.jud i j) :
    ∀ (prs : List Prediction) (j : Nat),
      judAux (injectFail d s e) i j prs =
        (judTrace i j prs.length, .ok (evaluatePreds d prs)) := by
  intro prs
  induction prs with
  | nil => intro j; rfl
  | cons pr prs ih =>
    intro j
    simp only [judAux, injectFail_judge]
    rw [if_neg (hs j)]
    simp only [ih (j + 1), Except.map]
    simp [judTrace, evaluatePreds, List.range'_succ]

theorem judAux_fail {ε : Type} (d : Driver) (e : ε) (i jf : Nat) :
    ∀ (prs : List Prediction) (j : Nat), j ≤ jf → jf < j + prs.length →
      judAux (injectFail d (StepId.jud i jf) e) i j prs =
        (judTrace i j (jf - j + 1), .error e) := by
  intro prs
  induction prs with
  | nil =>
    intro j h1 h2
    simp only [List.length_nil] at h2
    omega
  | cons pr prs ih =>
    intro j h1 h2
    simp only [judAux, injectFail_judge]
    by_cases hj : jf = j
    · subst hj
      rw [if_pos rfl]
      have hone : jf - jf + 1 = 1 := by omega
      rw [hone]
      simp [judTrace]
    · rw [if_neg (by simp only [StepId.jud.injEq]; omega)]
      simp only [ih (j + 1) (by omega) (by simp only [List.length_cons] at h2; omega), Except.map]
      have harith : jf - j + 1 = (jf - (j + 1) + 1) + 1 := by omega
      rw [harith]
      simp [judTrace, List.range'_succ]

theorem runRoundE_ok {ε : Type} (d : Driver) (s : StepId) (e : ε) (papers : List Paper)
    (n : Nat) (st : LoopState) (i : Nat) (hs : s.roundOf ≠ i) :
    runRoundE (injectFail d s e) papers n st i =
      (roundShape papers.length n i, .ok (runRound d papers n st i).1) := by
  have hg : ∀ j, s ≠ StepId.gen i j := fun j hc => hs (by rw [hc]; rfl)
  have hjd : ∀ j, s ≠ StepId.jud i j := fun j hc => hs (by rw [hc]; rfl)
  have him : s ≠ StepId.imp i := fun hc => hs (by rw [hc]; rfl)
  simp only [runRoundE, injectFail_mkZeroShot, injectFail_mkMetaprompt, injectFail_improveLLM]
  rw [genAux_ok d s e i (d.mkZeroShot st.systemPrompt) hg papers 0]
  dsimp only
  rw [judAux_ok d s e i hjd (generatePreds d (d.mkZeroShot st.systemPrompt) papers) 0]
  dsimp only
  by_cases hlast : i + 1 = n
  · rw [if_pos hlast]
    simp only [runRound, roundShape, if_pos hlast]
    simp [generatePreds, evaluatePreds, List.length_map, List.append_assoc]
  · rw [if_neg hlast, if_neg him]
    dsimp only
    simp only [runRound, roundShape, if_neg hlast]
    simp [generatePreds, evaluatePreds, List.length_map, List.append_assoc]

theorem runRoundE_fail_gen {ε : Type} (d : Driver) (e : ε) (papers : List Paper) (n : Nat)
    (st : LoopState) (i j : Nat) (hj : j < papers.length) :
    runRoundE (injectFail d (StepId.gen i j) e) papers n st i =
      (failTrace papers.length (StepId.gen i j), .error e) := by
  simp only [runRoundE, injectFail_mkZeroShot]
  rw [genAux_fail d e i j (d.mkZeroShot st.systemPrompt) papers 0 (by omega) (by omega)]
  dsimp only
  simp [failTrace]

theorem runRoundE_fail_jud {ε : Type} (d : Driver) (e : ε) (papers : List Paper) (n : Nat)
    (st : LoopState) (i j : Nat) (hj : j < papers.length) :
    runRoundE (injectFail d (StepId.jud i j) e) papers n st i =
      (failTrace papers.length (StepId.jud i j), .error e) := by
  have hg : ∀ j2, (StepId.jud i j) ≠ StepId.gen i j2 := fun j2 hc => StepId.noConfusion hc
  simp only [runRoundE, injectFail_mkZeroShot]
  rw [genAux_ok d (StepId.jud i j) e i (d.mkZeroShot st.systemPrompt) hg papers 0]
  dsimp only
  rw [judAux_fail d e i j (generatePreds d (d.mkZeroShot st.systemPrompt) papers) 0 (by omega)
    (by simp only [generatePreds, List.length_map]; omega)]
  dsimp only
  simp [failTrace, generatePreds, List.length_map]

theorem runRoundE_fail_imp {ε : Type} (d : Driver) (e : ε) (papers : List Paper) (n : Nat)
    (st : LoopState) (i : Nat) (hn : ¬ i + 1 = n) :
    runRoundE (injectFail d (StepId.imp i) e) papers n st i =
      (failTrace papers.length (StepId.imp i), .error e) := by
  have hg : ∀ j2, (StepId.imp i) ≠ StepId.gen i j2 := fun j2 hc => StepId.noConfusion hc
  have hjd : ∀ j2, (StepId.imp i) ≠ StepId.jud i j2 := fun j2 hc => StepId.noConfusion hc
  simp only [runRoundE, injectFail_mkZeroShot, injectFail_mkMetaprompt, injectFail_improveLLM]
  rw [genAux_ok d (StepId.imp i) e i (d.mkZeroShot st.systemPrompt) hg papers 0]
  dsimp only
  rw [judAux_ok d (StepId.imp i) e i hjd (generatePreds d (d.mkZeroShot st.systemPrompt) papers) 0]
  dsimp only
  rw [if_neg hn]
  simp [failTrace, generatePreds, evaluatePreds, List.length_map, List.append_assoc]

theorem runRoundsE_fail {ε : Type} (d : Driver) (s : StepId) (e : ε) (papers : List Paper)
    (n : Nat)
    (hfail : ∀ st : LoopState, runRoundE (injectFail d s e) papers n st s.roundOf =
      (failTrace papers.length s, .error e)) :
    ∀ (k a : Nat) (st : LoopState), a ≤ s.roundOf → s.roundOf < a + k →
      runRoundsE (injectFail d s e) papers n st (List.range' a k) =
        (((List.range' a (s.roundOf - a)).map (roundShape papers.length n)).flatten ++
          failTrace papers.length s, .error e) := by
  intro k
  induction k with
  | zero =>
    intro a st h1 h2
    omega
  | succ k ih =>
    intro a st h1 h2
    have hrange : List.range' a (k + 1) = a :: List.range' (a + 1) k := rfl
    rw [hrange]
    simp only [runRoundsE]
    by_cases ha : a = s.roundOf
    · rw [ha, hfail st]
      dsimp only
      simp [Nat.sub_self]
    · rw [runRoundE_ok d s e papers n st a (by omega)]
      dsimp only
      rw [ih (a + 1) (runRound d papers n st a).1 (by omega) (by omega)]
      dsimp only
      have harith : s.roundOf - a = (s.roundOf - (a + 1)) + 1 := by omega
      rw [harith]
      have hr2 : List.range' a ((s.roundOf - (a + 1)) + 1) =
          a :: List.range' (a + 1) (s.roundOf - (a + 1)) := rfl
      rw [hr2]
      simp [List.append_assoc]

/-- Claim C7: the loop has no error recovery.  If the one model call named
by a valid step `s` — a generate call, a judge call, or an improve-prompt
call — raises exception `e`, then the whole run returns exactly that
exception unchanged, and the emitted trace is precisely all steps before
`s` plus the failing call itself: no retry, no fallback branch, no later
step of the failing round, no later round, and no final save. -/
theorem loop_error_propagation {ε : Type} (d : Driver) (papers : List Paper) (n : Nat)
    (initPrompt : List Char) (s : StepId) (e : ε) (hv : s.valid n papers.length) :
    programE (injectFail d s e) papers n initPrompt =
      (((List.range s.roundOf).map (roundShape papers.length n)).flatten ++
        failTrace papers.length s, .error e) := by
  have hrn : s.roundOf < n := by
    cases s with
    | gen i j => exact hv.1
    | jud i j => exact hv.1
    | imp i =>
      simp only [StepId.valid] at hv
      simp only [StepId.roundOf]
      omega
  have hfail : ∀ st : LoopState, runRoundE (injectFail d s e) papers n st s.roundOf =
      (failTrace papers.length s, .error e) := by
    intro st
    cases s with
    | gen i j => exact runRoundE_fail_gen d e papers n st i j hv.2
    | jud i j => exact runRoundE_fail_jud d e papers n st i j hv.2
    | imp i =>
      refine runRoundE_fail_imp d e papers n st i ?_
      simp only [StepId.valid] at hv
      omega
  simp only [programE]
  rw [show List.range n = List.range' 0 n from List.range_eq_range' n]
  rw [runRoundsE_fail d s e papers n hfail n 0 (initLoopState initPrompt) (Nat.zero_le _)
    (by omega)]
  dsimp only
  rw [show List.range s.roundOf = List.range' 0 s.roundOf from List.range_eq_range' _]
  simp

/-- Witness for C7's theorem: with the concrete driver on one paper over
two rounds, failing the judge call of round `0` stops the run right after
that call with the injected exception. -/
theorem loop_error_propagation_witness :
    (StepId.jud 0 0).valid 2 papers0.length ∧
    programE (injectFail d0 (StepId.jud 0 0) (7 : Nat)) papers0 2 [] =
      (((List.range (StepId.jud 0 0).roundOf).map (roundShape papers0.length 2)).flatten ++
        failTrace papers0.length (StepId.jud 0 0), .error 7) :=
  ⟨by decide, loop_error_propagation d0 papers0 2 [] (StepId.jud 0 0) 7 (by decide)⟩
